import Mathlib

/-!
Shallow embedding of the camera timelapse controller
(`src/archive/poc/interval.py`) and proofs about its behaviour.

HTTP responses are modelled as `Option Nat`: `some code` is a reply with
that status code, `none` is a transport failure (the Python helper
`post_shutter_action` returns `None` on exception).  Time values and
seconds are modelled as rationals.  The device is modelled as a queue of
responses consumed one per HTTP call, so an arbitrary device behaviour is
an arbitrary `List (Option Nat)`.
-/

/-- A response status is accepted when it lies in {200, 201, 202}
(`r.status_code in (200, 201, 202)` in the source); a transport failure
(`None`) is never accepted. -/
def statusOk : Option Nat → Bool
  | some c => c == 200 || c == 201 || c == 202
  | none => false

/-! ### Exposure parsing (`convert_tv_to_seconds`) -/

/-- Numeric value of a list of decimal digit characters, most significant
first (the usual positional reading used by Python `float` on the integer
part of a numeral). -/
def digitsVal (cs : List Char) : Nat :=
  cs.foldl (fun n c => 10 * n + (c.toNat - 48)) 0

/-- Models Python `float()` applied to a string, on the decimal-numeral
fragment the program's inputs use: an optional sign, then digits with at
most one decimal point and at least one digit.  Exponent, `inf`/`nan` and
surrounding whitespace forms are outside this fragment.  Returns `none`
where Python raises `ValueError`. -/
def pyFloat (cs : List Char) : Option ℚ :=
  let (neg, rest) :=
    match cs with
    | '-' :: r => (true, r)
    | '+' :: r => (false, r)
    | r => (false, r)
  let intPart := rest.takeWhile (fun c => c ≠ '.')
  let dotAndFrac := rest.dropWhile (fun c => c ≠ '.')
  let fracPart := dotAndFrac.tail
  let val? : Option ℚ :=
    if dotAndFrac.isEmpty then
      -- no decimal point: plain integer numeral
      if intPart.isEmpty ∨ ¬ intPart.all Char.isDigit then none
      else some (digitsVal intPart)
    else if ('.' ∈ fracPart) then none   -- a second decimal point
    else if intPart.isEmpty ∧ fracPart.isEmpty then none   -- lone "."
    else if ¬ intPart.all Char.isDigit ∨ ¬ fracPart.all Char.isDigit then none
    else some ((digitsVal intPart : ℚ) + (digitsVal fracPart : ℚ) / 10 ^ fracPart.length)
  match val? with
  | none => none
  | some v => some (if neg then -v else v)

/-- Python `str.split('/')` on the character list of a string: split on
every occurrence of the separator, keeping empty pieces. -/
def splitChar (sep : Char) : List Char → List (List Char)
  | [] => [[]]
  | c :: cs =>
    let r := splitChar sep cs
    if c = sep then [] :: r
    else
      match r with
      | h :: t => (c :: h) :: t
      | [] => [[c]]

/-- A Canon TV (shutter-speed) value as received from the device: a JSON
string, a native number (Python `int`/`float`), or a value of any other
type (for which every `isinstance` test in the source fails). -/
inductive TVValue
  | str (s : String)
  | num (q : ℚ)
  | other
deriving DecidableEq

/-- Embedding of `convert_tv_to_seconds`: a string containing `'/'` is
split into numerator and denominator and parsed as a fraction (a split
into anything but exactly two pieces, a non-numeric piece, or a zero
denominator raises in Python and is caught, yielding `None`); any other
string is parsed as a plain float; a native number is used directly; any
other type falls through to `None`. -/
def convert_tv_to_seconds : TVValue → Option ℚ
  | .str s =>
    let cs := s.toList
    if '/' ∈ cs then
      match splitChar '/' cs with
      | [n, d] =>
        match pyFloat n, pyFloat d with
        | some nv, some dv => if dv = 0 then none else some (nv / dv)
        | _, _ => none
      | _ => none
    else pyFloat cs
  | .num q => some q
  | .other => none

/-! ### Interval validation (`validate_interval`) -/

/-- Embedding of `validate_interval`: passes unconditionally when the
shutter speed could not be determined, otherwise fails exactly when
`interval_seconds <= shutter_speed_seconds`. -/
def validate_interval (interval_seconds : ℚ) (shutter_speed_seconds : Option ℚ) : Bool :=
  match shutter_speed_seconds with
  | none => true
  | some s => if interval_seconds ≤ s then false else true

/-- C8: the Interval Validator passes iff the exposure seconds are absent
or the interval strictly exceeds them; an interval equal to the exposure
duration fails. -/
theorem validate_interval_strict :
    ∀ (i : ℚ) (es : Option ℚ),
      (validate_interval i es = true ↔ es = none ∨ ∃ s, es = some s ∧ s < i) ∧
      validate_interval i (some i) = false := by
  intro i es
  constructor
  · cases es with
    | none => simp [validate_interval]
    | some s =>
      simp only [validate_interval]
      by_cases h : i ≤ s
      · simp only [h, if_true]
        simp only [Bool.false_eq_true, false_iff, not_or]
        refine ⟨by simp, ?_⟩
        rintro ⟨x, hx, hlt⟩
        rw [Option.some_inj] at hx
        exact absurd hlt (by rw [← hx]; exact not_lt.mpr h)
      · simp only [h, if_false]
        simp only [true_iff]
        exact Or.inr ⟨s, rfl, lt_of_not_ge h⟩
  · simp [validate_interval]

/-! ### Parser lemmas -/

lemma splitChar_no_sep {sep : Char} {cs : List Char} (h : sep ∉ cs) :
    splitChar sep cs = [cs] := by
  induction cs with
  | nil => rfl
  | cons c cs ih =>
    have hc : c ≠ sep := fun hcs => h (hcs ▸ List.mem_cons_self c cs)
    have hrest : sep ∉ cs := fun hm => h (List.mem_cons_of_mem c hm)
    simp [splitChar, hc, ih hrest]

lemma splitChar_append {sep : Char} {as bs : List Char} (h : sep ∉ as) :
    splitChar sep (as ++ sep :: bs) = as :: splitChar sep bs := by
  induction as with
  | nil => simp [splitChar]
  | cons a as ih =>
    have ha : a ≠ sep := fun has => h (has ▸ List.mem_cons_self a as)
    have hrest : sep ∉ as := fun hm => h (List.mem_cons_of_mem a hm)
    simp only [List.cons_append, splitChar, List.append_eq, if_neg ha, ih hrest]

lemma toList_mk (cs : List Char) : (String.mk cs).toList = cs := rfl

/-- C9: the shutter-speed parser maps "1/60" to 1/60 s, "2" to 2 s, the
native number 2 to 2 s, an unparseable string to absent; in general a
fraction string built from two slash-free pieces that parse as floats
with nonzero denominator yields their quotient, and a slash-free string
is parsed as a plain float (whole seconds for an integer numeral). -/
theorem convert_tv_parsing :
    convert_tv_to_seconds (.str "1/60") = some (1/60) ∧
    convert_tv_to_seconds (.str "2") = some 2 ∧
    convert_tv_to_seconds (.num 2) = some 2 ∧
    convert_tv_to_seconds (.str "hello") = none ∧
    (∀ ns ds nv dv, ('/' : Char) ∉ ns → ('/' : Char) ∉ ds →
       pyFloat ns = some nv → pyFloat ds = some dv → dv ≠ 0 →
       convert_tv_to_seconds (.str (String.mk (ns ++ '/' :: ds))) = some (nv / dv)) ∧
    (∀ cs, ('/' : Char) ∉ cs →
       convert_tv_to_seconds (.str (String.mk cs)) = pyFloat cs) := by
  refine ⟨by rfl, by rfl, by rfl, by rfl, ?_, ?_⟩
  · intro ns ds nv dv hns hds hn hd hdv
    have hmem : ('/' : Char) ∈ ns ++ '/' :: ds := by
      simp
    simp only [convert_tv_to_seconds, toList_mk, if_pos hmem,
      splitChar_append hns, splitChar_no_sep hds, hn, hd, if_neg hdv]
  · intro cs hcs
    simp only [convert_tv_to_seconds, toList_mk, if_neg hcs]

theorem convert_tv_parsing_witness :
    convert_tv_to_seconds (.str (String.mk (['3'] ++ '/' :: ['4']))) = some (3 / 4) :=
  convert_tv_parsing.2.2.2.2.1 ['3'] ['4'] 3 4 (by decide) (by decide)
    (by rfl) (by rfl) (by simp)

/-- C10: the shutter-speed parser is total over all input shapes and
never raises: every input yields either a number of seconds or absent;
the division-by-zero string "1/0", the non-numeric fraction "a/b" and a
value of an unexpected type all yield absent. -/
theorem convert_tv_total :
    (∀ v, convert_tv_to_seconds v = none ∨ ∃ q, convert_tv_to_seconds v = some q) ∧
    convert_tv_to_seconds (.str "1/0") = none ∧
    convert_tv_to_seconds (.str "a/b") = none ∧
    convert_tv_to_seconds .other = none := by
  refine ⟨?_, by rfl, by rfl, by rfl⟩
  intro v
  cases h : convert_tv_to_seconds v with
  | none => exact Or.inl rfl
  | some q => exact Or.inr ⟨q, rfl⟩

/-! ### Shutter actuation (`release_shutter`, `take_photo`) -/

/-- A request body sent to the shutter endpoint, one constructor per JSON
shape occurring in the source. -/
inductive Payload
  | afAction (af : Bool) (action : String)
  | actionOnly (action : String)
  | pressKey (v : String)
  | buttonKey (v : String)
deriving DecidableEq

/-- The fixed ordered list of release payload variants tried by
`release_shutter`. -/
def release_payloads : List Payload :=
  [.afAction false "release", .actionOnly "release", .pressKey "release", .buttonKey "release"]

/-- Response the device gives to the i-th HTTP call when its remaining
behaviour is `dev` (an exhausted queue behaves as a transport failure). -/
def respAt (dev : List (Option Nat)) (i : Nat) : Option Nat :=
  (dev.drop i).headD none

/-- The retry loop inside `release_shutter`: posts each payload in order
against the device queue, stopping at the first accepted response.
Returns whether some payload was accepted, the list of payloads actually
posted, and the unconsumed remainder of the device queue. -/
def tryPayloads : List Payload → List (Option Nat) → Bool × List Payload × List (Option Nat)
  | [], dev => (false, [], dev)
  | p :: ps, dev =>
    let r := dev.headD none
    let dev' := dev.tail
    if statusOk r then (true, [p], dev')
    else
      let res := tryPayloads ps dev'
      (res.1, p :: res.2.1, res.2.2)

/-- Embedding of `release_shutter`: runs the retry loop over the fixed
variant list. -/
def release_shutter (dev : List (Option Nat)) : Bool × List Payload × List (Option Nat) :=
  tryPayloads release_payloads dev

/-- The abstract shutter state of the spec's state machine, as determined
by the physical effect of the calls `take_photo` makes: `Idle` when the
shutter was never engaged or was successfully released, `Stuck` when all
release attempts failed after a successful press. -/
inductive ShutterState
  | Idle
  | Pressed
  | Recovering
  | Stuck
deriving DecidableEq

/-- Result of one actuation cycle: the boolean `take_photo` returns, the
payloads posted in order, the resulting shutter state, and the rest of
the device queue. -/
structure ActResult where
  success : Bool
  attempts : List Payload
  final : ShutterState
  rest : List (Option Nat)
deriving DecidableEq

/-- The release phase of `take_photo`, entered after a press was
accepted: post the nominal release payload; on acceptance report success;
otherwise run `release_shutter` and report success iff the recovery
succeeded (`if release_shutter(path): return True`). -/
def takeRelease (pressAttempts : List Payload) (dev : List (Option Nat)) : ActResult :=
  let release_payload : Payload := .afAction false "release"
  let r := dev.headD none
  let dev' := dev.tail
  if statusOk r then
    ⟨true, pressAttempts ++ [release_payload], .Idle, dev'⟩
  else
    let res := release_shutter dev'
    if res.1 then ⟨true, pressAttempts ++ release_payload :: res.2.1, .Idle, res.2.2⟩
    else ⟨false, pressAttempts ++ release_payload :: res.2.1, .Stuck, res.2.2⟩

/-- Embedding of `take_photo`: press without AF, retry the press with AF
on failure, then release; a press that fails twice aborts the cycle with
the shutter never engaged. -/
def take_photo (dev : List (Option Nat)) : ActResult :=
  let press1 : Payload := .afAction false "full_press"
  let press2 : Payload := .afAction true "full_press"
  let r1 := dev.headD none
  let dev1 := dev.tail
  if statusOk r1 then
    takeRelease [press1] dev1
  else
    let r2 := dev1.headD none
    let dev2 := dev1.tail
    if statusOk r2 then takeRelease [press1, press2] dev2
    else ⟨false, [press1, press2], .Idle, dev2⟩

lemma respAt_zero (dev : List (Option Nat)) : respAt dev 0 = dev.headD none := rfl

lemma respAt_succ (dev : List (Option Nat)) (i : Nat) :
    respAt dev (i + 1) = respAt dev.tail i := by
  cases dev <;> simp [respAt]

lemma tryPayloads_true_iff (ps : List Payload) (dev : List (Option Nat)) :
    (tryPayloads ps dev).1 = true ↔
      ∃ i, i < ps.length ∧ statusOk (respAt dev i) = true := by
  induction ps generalizing dev with
  | nil => simp [tryPayloads]
  | cons p ps ih =>
    by_cases h : statusOk (dev.headD none) = true
    · have hres : (tryPayloads (p :: ps) dev).1 = true := by
        simp only [tryPayloads, if_pos h]
      rw [hres]
      exact iff_of_true rfl ⟨0, by simp, by rw [respAt_zero]; exact h⟩
    · simp only [tryPayloads, if_neg h]
      rw [ih dev.tail]
      constructor
      · rintro ⟨i, hi, hok⟩
        exact ⟨i + 1, by simpa using hi, by rw [respAt_succ]; exact hok⟩
      · rintro ⟨i, hi, hok⟩
        match i with
        | 0 => exact absurd (respAt_zero dev ▸ hok) h
        | j + 1 => exact ⟨j, by simpa using hi, by rw [← respAt_succ]; exact hok⟩

lemma tryPayloads_all_fail (ps : List Payload) (dev : List (Option Nat))
    (h : ∀ i, i < ps.length → statusOk (respAt dev i) = false) :
    (tryPayloads ps dev).2.1 = ps := by
  induction ps generalizing dev with
  | nil => rfl
  | cons p ps ih =>
    have h0 : statusOk (dev.headD none) = false := respAt_zero dev ▸ h 0 (by simp)
    have hrest : ∀ i, i < ps.length → statusOk (respAt dev.tail i) = false := fun i hi => by
      rw [← respAt_succ]; exact h (i + 1) (by simpa using hi)
    simp only [tryPayloads]
    rw [h0]
    simp [ih dev.tail hrest]

lemma tryPayloads_first_ok (ps : List Payload) (dev : List (Option Nat)) (k : Nat)
    (hk : k < ps.length) (hok : statusOk (respAt dev k) = true)
    (hbef : ∀ j, j < k → statusOk (respAt dev j) = false) :
    (tryPayloads ps dev).2.1 = ps.take (k + 1) ∧ (tryPayloads ps dev).1 = true := by
  induction ps generalizing dev k with
  | nil => exact absurd hk (by simp)
  | cons p ps ih =>
    match k with
    | 0 =>
      have h0 : statusOk (dev.headD none) = true := respAt_zero dev ▸ hok
      simp only [tryPayloads]
      rw [h0]
      simp
    | k + 1 =>
      have h0 : statusOk (dev.headD none) = false := respAt_zero dev ▸ hbef 0 (by omega)
      have hih := ih dev.tail k (by simpa using hk) (by rw [← respAt_succ]; exact hok)
        (fun j hj => by rw [← respAt_succ]; exact hbef (j + 1) (by omega))
      simp only [tryPayloads]
      rw [h0]
      simp [hih.1, hih.2]

/-- C7: the recovery procedure tries its fixed ordered payload list one
at a time, stopping at the first accepted response: it succeeds iff some
of the four variants is accepted, on failure it has attempted the whole
list, and when the first accepted variant is the k-th one exactly the
prefix of the list up to and including it was attempted, in order. -/
theorem release_shutter_first_accepted (dev : List (Option Nat)) :
    ((release_shutter dev).1 = true ↔ ∃ i, i < 4 ∧ statusOk (respAt dev i) = true) ∧
    ((release_shutter dev).1 = false → (release_shutter dev).2.1 = release_payloads) ∧
    (∀ k, k < 4 → statusOk (respAt dev k) = true →
      (∀ j, j < k → statusOk (respAt dev j) = false) →
      (release_shutter dev).2.1 = release_payloads.take (k + 1) ∧
        (release_shutter dev).1 = true) := by
  have hlen : release_payloads.length = 4 := rfl
  refine ⟨by rw [release_shutter, tryPayloads_true_iff, hlen], ?_, ?_⟩
  · intro hfail
    refine tryPayloads_all_fail _ _ fun i hi => ?_
    by_contra hne
    have hok : statusOk (respAt dev i) = true := by
      cases hb : statusOk (respAt dev i)
      · exact absurd hb hne
      · rfl
    have : (release_shutter dev).1 = true := by
      rw [release_shutter, tryPayloads_true_iff]
      exact ⟨i, hlen ▸ hi, hok⟩
    rw [hfail] at this
    exact Bool.false_ne_true this
  · intro k hk hok hbef
    exact tryPayloads_first_ok _ _ k (hlen ▸ hk) hok hbef

theorem release_shutter_first_accepted_witness :
    (release_shutter [some 500, some 200]).2.1 = release_payloads.take 2 ∧
      (release_shutter [some 500, some 200]).1 = true :=
  (release_shutter_first_accepted [some 500, some 200]).2.2 1 (by decide)
    (by decide) (by decide)

/-- C1 counterexample: with the press accepted, the nominal release
rejected, the first recovery variant rejected and the second accepted,
`take_photo` returns `True` — the shot is reported as taken for that
cycle (`if release_shutter(path): return True` in the source), not as
failed, while the actuator does end in `Idle`. -/
theorem take_photo_recovery_reports_taken :
    (take_photo [some 200, some 500, some 500, some 200]).success = true ∧
    (take_photo [some 200, some 500, some 500, some 200]).final = ShutterState.Idle := by
  constructor <;> rfl

/-- C1 (amended): in a cycle where the press succeeds, the nominal
release fails and the second recovery payload variant is accepted,
`take_photo` reports the shot as taken (returns `True`, logging that the
photo may have been taken), the actuator ends in `Idle`, and exactly the
recovery payload variants up to and including the succeeding one were
attempted, in order, after the press and the nominal release. -/
theorem take_photo_recovery_second_variant (r0 r1 r2 r3 : Option Nat)
    (rest : List (Option Nat))
    (h0 : statusOk r0 = true) (h1 : statusOk r1 = false)
    (h2 : statusOk r2 = false) (h3 : statusOk r3 = true) :
    take_photo (r0 :: r1 :: r2 :: r3 :: rest) =
      ⟨true,
       [.afAction false "full_press", .afAction false "release",
        .afAction false "release", .actionOnly "release"],
       .Idle, rest⟩ := by
  simp only [take_photo, takeRelease, release_shutter, release_payloads, tryPayloads,
    List.headD_cons, List.tail_cons]
  rw [h0, h1, h2, h3]
  simp

theorem take_photo_recovery_second_variant_witness :
    take_photo [some 200, some 500, some 500, some 200] =
      ⟨true,
       [.afAction false "full_press", .afAction false "release",
        .afAction false "release", .actionOnly "release"],
       .Idle, []⟩ :=
  take_photo_recovery_second_variant (some 200) (some 500) (some 500) (some 200) []
    (by rfl) (by rfl) (by rfl) (by rfl)

/-! ### Endpoint resolution (`find_shooting_endpoints`) -/

/-- Does `sub` occur as a contiguous run of characters at the front of
`l`?  (Helper for the substring test Python's `in` performs.) -/
def startsWithList : List Char → List Char → Bool
  | _, [] => true
  | [], _ :: _ => false
  | a :: as, b :: bs => a == b && startsWithList as bs

/-- Does `sub` occur as a contiguous run of characters anywhere in `l`? -/
def hasSubList : List Char → List Char → Bool
  | l, sub =>
    match l with
    | [] => sub.isEmpty
    | _ :: as => startsWithList l sub || hasSubList as sub

/-- Python's substring test `sub in s`. -/
def strContains (s sub : String) : Bool := hasSubList s.toList sub.toList

/-- One element of a version's endpoint list in the capability index: a
dict (with an optional `path` key and a `post` flag, defaulting to
false), or a value of some other type, which the source skips. -/
inductive IdxEntry
  | endpointDict (path : Option String) (post : Bool)
  | nonDict
deriving DecidableEq

/-- The value under one version key of the capability index: a list of
entries, or a value of some other type, which the source skips. -/
inductive IdxValue
  | entryList (entries : List IdxEntry)
  | nonList
deriving DecidableEq

/-- The first loop of `find_shooting_endpoints` restricted to one
version's entry list: keep the `path` of every dict entry whose path
contains "shutterbutton" and whose `post` flag is set. -/
def collectFromEntries : List IdxEntry → List String
  | [] => []
  | .endpointDict (some p) post :: es =>
    if strContains p "shutterbutton" && post then p :: collectFromEntries es
    else collectFromEntries es
  | .endpointDict none _ :: es => collectFromEntries es
  | .nonDict :: es => collectFromEntries es

/-- The first loop of `find_shooting_endpoints`: scan the versions of the
capability index in order, collecting POST-capable shutterbutton paths in
first-seen order. -/
def collectEndpoints : List (String × IdxValue) → List String
  | [] => []
  | (_, .entryList es) :: rest => collectFromEntries es ++ collectEndpoints rest
  | (_, .nonList) :: rest => collectEndpoints rest

/-- The second loop of `find_shooting_endpoints`: walk the collected
paths keeping a `manual_endpoint` and a `regular_endpoint` slot; a path
containing "manual" always overwrites the manual slot, while a plain
shutterbutton path overwrites the regular slot only while no manual
endpoint has been seen yet. -/
def scanEndpoints : List String → Option String → Option String → Option String × Option String
  | [], m, r => (m, r)
  | e :: es, m, r =>
    if strContains e "manual" then scanEndpoints es (some e) r
    else if strContains e "shutterbutton" && m.isNone then scanEndpoints es m (some e)
    else scanEndpoints es m r

/-- Embedding of `find_shooting_endpoints`: collect the candidate paths,
scan them, and return the manual endpoint if one was found, else the
regular endpoint, else nothing. -/
def find_shooting_endpoints (idx : List (String × IdxValue)) : Option String :=
  let endpoints := collectEndpoints idx
  let mr := scanEndpoints endpoints none none
  match mr.1 with
  | some e => some e
  | none => mr.2

lemma scanEndpoints_fst_keeps_manual (l : List String) (x : String) (r : Option String)
    (huniq : ∀ e ∈ l, strContains e "manual" = true → e = x) :
    (scanEndpoints l (some x) r).1 = some x := by
  induction l generalizing r with
  | nil => rfl
  | cons e es ih =>
    by_cases he : strContains e "manual" = true
    · have : e = x := huniq e (List.mem_cons_self e es) he
      subst this
      simp only [scanEndpoints, if_pos he]
      exact ih r fun b hb => huniq b (List.mem_cons_of_mem e hb)
    · simp only [scanEndpoints, if_neg he, Option.isNone_some, Bool.and_false,
        Bool.false_eq_true, if_false]
      exact ih r fun b hb => huniq b (List.mem_cons_of_mem e hb)

lemma scanEndpoints_fst_finds_manual (l : List String) (x : String) (r : Option String)
    (hx : x ∈ l) (hman : strContains x "manual" = true)
    (huniq : ∀ e ∈ l, strContains e "manual" = true → e = x) :
    (scanEndpoints l none r).1 = some x := by
  induction l generalizing r with
  | nil => exact absurd hx (List.not_mem_nil x)
  | cons e es ih =>
    by_cases he : strContains e "manual" = true
    · have : e = x := huniq e (List.mem_cons_self e es) he
      subst this
      simp only [scanEndpoints, if_pos he]
      exact scanEndpoints_fst_keeps_manual es e r fun b hb =>
        huniq b (List.mem_cons_of_mem e hb)
    · have hxes : x ∈ es := by
        rcases List.mem_cons.mp hx with h | h
        · exact absurd (h ▸ hman) he
        · exact h
      have huniq' : ∀ b ∈ es, strContains b "manual" = true → b = x := fun b hb =>
        huniq b (List.mem_cons_of_mem e hb)
      simp only [scanEndpoints, if_neg he]
      by_cases hs : (strContains e "shutterbutton" && Option.isNone (none : Option String)) = true
      · rw [if_pos hs]
        exact ih (some e) hxes huniq'
      · rw [if_neg hs]
        exact ih r hxes huniq'

/-- C6: when the capability index yields exactly one manual POST-capable
shutterbutton endpoint alongside at least one plain one, resolution
returns the manual endpoint, wherever the endpoints sit in the version
lists. -/
theorem find_shooting_endpoints_manual_preferred (idx : List (String × IdxValue)) (x : String)
    (hx : x ∈ collectEndpoints idx) (hman : strContains x "manual" = true)
    (huniq : ∀ e ∈ collectEndpoints idx, strContains e "manual" = true → e = x)
    (hplain : ∃ y ∈ collectEndpoints idx, strContains y "manual" = false) :
    find_shooting_endpoints idx = some x := by
  have h := scanEndpoints_fst_finds_manual (collectEndpoints idx) x none hx hman huniq
  simp only [find_shooting_endpoints, h]

theorem find_shooting_endpoints_manual_preferred_witness :
    find_shooting_endpoints
      [("ver100", .entryList
        [.endpointDict (some "/ccapi/ver100/shooting/control/shutterbutton") true,
         .endpointDict (some "/ccapi/ver100/shooting/control/shutterbutton/manual") true])] =
      some "/ccapi/ver100/shooting/control/shutterbutton/manual" :=
  find_shooting_endpoints_manual_preferred _
    "/ccapi/ver100/shooting/control/shutterbutton/manual"
    (by decide) (by decide) (by decide)
    ⟨"/ccapi/ver100/shooting/control/shutterbutton", by decide, by decide⟩

lemma collectFromEntries_shutter (es : List IdxEntry) :
    ∀ e ∈ collectFromEntries es, strContains e "shutterbutton" = true := by
  induction es with
  | nil => simp [collectFromEntries]
  | cons d es ih =>
    cases d with
    | nonDict => simpa [collectFromEntries] using ih
    | endpointDict p post =>
      cases p with
      | none => simpa [collectFromEntries] using ih
      | some pth =>
        by_cases hc : (strContains pth "shutterbutton" && post) = true
        · intro e he
          rw [collectFromEntries, if_pos hc] at he
          rcases List.mem_cons.mp he with h | h
          · rw [Bool.and_eq_true] at hc
            exact h ▸ hc.1
          · exact ih e h
        · intro e he
          rw [collectFromEntries, if_neg hc] at he
          exact ih e he

lemma collectEndpoints_shutter (idx : List (String × IdxValue)) :
    ∀ e ∈ collectEndpoints idx, strContains e "shutterbutton" = true := by
  induction idx with
  | nil => simp [collectEndpoints]
  | cons kv rest ih =>
    obtain ⟨k, v⟩ := kv
    cases v with
    | nonList => simpa [collectEndpoints] using ih
    | entryList es =>
      intro e he
      rw [collectEndpoints] at he
      rcases List.mem_append.mp he with h | h
      · exact collectFromEntries_shutter es e h
      · exact ih e h

lemma getLastD_map_some_cons (l : List String) (a : String) :
    (l.map some).getLastD (some a) = (a :: l).getLast? := by
  induction l generalizing a with
  | nil => rfl
  | cons b t ih =>
    simp only [List.map_cons, List.getLastD_cons, List.getLast?_cons_cons]
    exact ih b

lemma getLastD_map_some (l : List String) :
    (l.map some).getLastD none = l.getLast? := by
  cases l with
  | nil => rfl
  | cons a t =>
    simp only [List.map_cons, List.getLastD_cons]
    exact getLastD_map_some_cons t a

lemma scanEndpoints_no_manual (l : List String) (r : Option String)
    (hm : ∀ e ∈ l, strContains e "manual" = false)
    (hs : ∀ e ∈ l, strContains e "shutterbutton" = true) :
    scanEndpoints l none r = (none, (l.map some).getLastD r) := by
  induction l generalizing r with
  | nil => rfl
  | cons e es ih =>
    have he : strContains e "manual" = false := hm e (List.mem_cons_self e es)
    have hse : strContains e "shutterbutton" = true := hs e (List.mem_cons_self e es)
    simp only [scanEndpoints]
    rw [he, hse]
    simp only [Bool.false_eq_true, if_false, Option.isNone_none, Bool.and_true, if_true,
      List.map_cons, List.getLastD_cons]
    exact ih (some e) (fun b hb => hm b (List.mem_cons_of_mem e hb))
      (fun b hb => hs b (List.mem_cons_of_mem e hb))

/-- C3 counterexample: a capability index with two plain POST-capable
shutterbutton endpoints and no manual variant, for which the resolver
returns the second collected path, not the first-seen one (the second
loop in the source keeps overwriting `regular_endpoint`). -/
theorem find_shooting_endpoints_not_first :
    collectEndpoints
        [("ver100", .entryList
          [.endpointDict (some "/ccapi/ver100/shooting/control/shutterbutton") true,
           .endpointDict (some "/ccapi/ver110/shooting/control/shutterbutton") true])] =
      ["/ccapi/ver100/shooting/control/shutterbutton",
       "/ccapi/ver110/shooting/control/shutterbutton"] ∧
    find_shooting_endpoints
        [("ver100", .entryList
          [.endpointDict (some "/ccapi/ver100/shooting/control/shutterbutton") true,
           .endpointDict (some "/ccapi/ver110/shooting/control/shutterbutton") true])] =
      some "/ccapi/ver110/shooting/control/shutterbutton" ∧
    ("/ccapi/ver110/shooting/control/shutterbutton" : String) ≠
      "/ccapi/ver100/shooting/control/shutterbutton" := by
  refine ⟨by decide, by decide, by decide⟩

/-- C3 (amended): for every capability index containing at least one
POST-capable shutterbutton endpoint but none whose path contains
"manual", the resolver returns the LAST plain shutter-POST match in
first-seen scan order across the versions' endpoint lists (each plain
match overwrites the previous one). -/
theorem find_shooting_endpoints_no_manual_last (idx : List (String × IdxValue))
    (hm : ∀ e ∈ collectEndpoints idx, strContains e "manual" = false) :
    find_shooting_endpoints idx = (collectEndpoints idx).getLast? := by
  have h := scanEndpoints_no_manual (collectEndpoints idx) none hm
    (collectEndpoints_shutter idx)
  simp only [find_shooting_endpoints, h, getLastD_map_some]

theorem find_shooting_endpoints_no_manual_last_witness :
    find_shooting_endpoints
        [("ver100", .entryList
          [.endpointDict (some "/ccapi/ver100/shooting/control/shutterbutton") true,
           .endpointDict (some "/ccapi/ver110/shooting/control/shutterbutton") true])] =
      (["/ccapi/ver100/shooting/control/shutterbutton",
        "/ccapi/ver110/shooting/control/shutterbutton"] : List String).getLast? := by
  have h := find_shooting_endpoints_no_manual_last
    [("ver100", .entryList
      [.endpointDict (some "/ccapi/ver100/shooting/control/shutterbutton") true,
       .endpointDict (some "/ccapi/ver110/shooting/control/shutterbutton") true])]
    (by decide)
  rw [h]
  decide

/-! ### Timelapse scheduler (the `while True` loop of `__main__`) -/

/-- Embedding of the scheduler loop with a stop time set.  Time is the
rational clock value; `dur n` is how long the n-th actuation cycle takes
(photo plus any recovery); between cycles the loop sleeps exactly
`interval` seconds.  The loop checks the deadline before a shot and again
after it, and the returned list holds the start time of every shot
actually initiated, in order.  `fuel` bounds the number of iterations so
the embedding is total; every run below is settled for all sufficiently
large fuel. -/
def scheduler_loop (fuel : Nat) (stop_at interval : ℚ) (dur : Nat → ℚ)
    (now : ℚ) (n : Nat) : List ℚ :=
  match fuel with
  | 0 => []
  | fuel + 1 =>
    if stop_at ≤ now then []
    else
      let fin := now + dur n
      if stop_at ≤ fin then [now]
      else now :: scheduler_loop fuel stop_at interval dur (fin + interval) (n + 1)

lemma scheduler_loop_mem_lt (fuel : Nat) (stop_at interval : ℚ) (dur : Nat → ℚ)
    (now : ℚ) (n : Nat) :
    ∀ t ∈ scheduler_loop fuel stop_at interval dur now n, t < stop_at := by
  induction fuel generalizing now n with
  | zero => intro t ht; exact absurd ht (List.not_mem_nil t)
  | succ fuel ih =>
    intro t ht
    rw [scheduler_loop] at ht
    by_cases h1 : stop_at ≤ now
    · rw [if_pos h1] at ht
      exact absurd ht (List.not_mem_nil t)
    · rw [if_neg h1] at ht
      by_cases h2 : stop_at ≤ now + dur n
      · rw [if_pos h2] at ht
        rcases List.mem_singleton.mp ht with rfl
        exact lt_of_not_ge h1
      · rw [if_neg h2] at ht
        rcases List.mem_cons.mp ht with rfl | hmem
        · exact lt_of_not_ge h1
        · exact ih (now + dur n + interval) (n + 1) t hmem

/-- C5: with a stop deadline set, no shot is ever initiated at or after
it — the pre-shot deadline check breaks out of the loop first, so every
shot start time in any run is strictly before the deadline. -/
theorem scheduler_never_starts_after_deadline (fuel : Nat) (stop_at interval : ℚ)
    (dur : Nat → ℚ) (now : ℚ) (n : Nat) :
    ∀ t ∈ scheduler_loop fuel stop_at interval dur now n, t < stop_at :=
  scheduler_loop_mem_lt fuel stop_at interval dur now n

theorem scheduler_never_starts_after_deadline_witness :
    (0 : ℚ) ∈ scheduler_loop 3 15 10 (fun _ => 0) 0 0 ∧ (0 : ℚ) < 15 :=
  ⟨by norm_num [scheduler_loop],
   scheduler_never_starts_after_deadline 3 15 10 (fun _ => 0) 0 0 0
     (by norm_num [scheduler_loop])⟩

/-- C2 counterexample: with the stop deadline 15 s after the start,
interval 10 s and each cycle taking 1/2 s (the `time.sleep(0.5)` between
press and release is the cycle's minimum duration), the loop initiates
two shots (at t = 0 and t = 10.5, both before the deadline), not exactly
one — the post-shot check at t = 0.5 passes and the loop sleeps only to
t = 10.5, still before the deadline. -/
theorem scheduler_deadline15_two_shots :
    scheduler_loop 5 15 10 (fun _ => 1/2) 0 0 = [0, 21/2] ∧
    (scheduler_loop 5 15 10 (fun _ => 1/2) 0 0).length ≠ 1 := by
  constructor
  · norm_num [scheduler_loop]
  · norm_num [scheduler_loop]

/-- C2 (amended): with the stop deadline 15 s after the start and
interval 10 s, at most two shots are attempted and each is started
before the deadline: exactly one (at t = 0) when the first cycle takes
at least 5 seconds, and exactly two (at t = 0 and at t = dur + 10)
otherwise; the loop never starts a shot at or after the deadline. -/
lemma scheduler_loop_succ (fuel : Nat) (stop_at interval : ℚ) (dur : Nat → ℚ)
    (now : ℚ) (n : Nat) :
    scheduler_loop (fuel + 1) stop_at interval dur now n =
      if stop_at ≤ now then []
      else if stop_at ≤ now + dur n then [now]
      else now :: scheduler_loop fuel stop_at interval dur (now + dur n + interval) (n + 1) :=
  rfl

theorem scheduler_deadline15_shots (fuel : Nat) (dur : Nat → ℚ)
    (hf : 3 ≤ fuel) (hd : ∀ n, 0 ≤ dur n) :
    scheduler_loop fuel 15 10 dur 0 0 =
      (if 5 ≤ dur 0 then [0] else [0, dur 0 + 10]) ∧
    ∀ t ∈ scheduler_loop fuel 15 10 dur 0 0, t < 15 := by
  obtain ⟨f, rfl⟩ : ∃ f, fuel = f + 3 := ⟨fuel - 3, by omega⟩
  constructor
  · rw [show f + 3 = (f + 2) + 1 from rfl, scheduler_loop_succ]
    rw [if_neg (by norm_num)]
    simp only [zero_add]
    by_cases h1 : (15 : ℚ) ≤ dur 0
    · rw [if_pos h1, if_pos (by linarith)]
    · rw [if_neg h1, show f + 2 = (f + 1) + 1 from rfl, scheduler_loop_succ]
      by_cases h2 : (15 : ℚ) ≤ dur 0 + 10
      · rw [if_pos h2, if_pos (by linarith)]
      · rw [if_neg h2, if_neg (show ¬ (5 : ℚ) ≤ dur 0 from fun h => h2 (by linarith))]
        by_cases h3 : (15 : ℚ) ≤ dur 0 + 10 + dur 1
        · rw [if_pos h3]
        · rw [if_neg h3, scheduler_loop_succ]
          rw [if_pos (show (15 : ℚ) ≤ dur 0 + 10 + dur 1 + 10 by
            have := hd 0; have := hd 1; linarith)]
  · exact scheduler_loop_mem_lt _ 15 10 dur 0 0

theorem scheduler_deadline15_shots_witness :
    scheduler_loop 4 15 10 (fun _ => 6) 0 0 = [0] := by
  have h := (scheduler_deadline15_shots 4 (fun _ => 6) (by norm_num)
    (fun _ => by norm_num)).1
  rw [h, if_pos (by norm_num)]

/-! ### Main wrapper (`try`/`except` around the scheduler loop) -/

/-- How the try-block of `__main__` ends: the loop finishes normally (the
stop time was reached), a `KeyboardInterrupt` arrives (external
cancellation, e.g. during a sleep between shots), or some other
exception escapes. -/
inductive LoopExit
  | normal
  | interrupted
  | failed (msg : String)
deriving DecidableEq

/-- The summary line logged after the loop completes normally. -/
def summaryLine (successful_shots total_shots : Nat) : String :=
  s!"=== Completed: {successful_shots}/{total_shots} shots taken successfully ==="

/-- Everything the process reports on its way out: the log lines emitted
after the loop stopped, and the exit code. -/
structure MainResult where
  log : List String
  exitCode : Nat
deriving DecidableEq

/-- Embedding of the tail of `__main__`: on normal loop completion the
success tally is logged and the process exits 0 (falling off the end);
a `KeyboardInterrupt` is caught and only "Script interrupted by user" is
logged before exiting 0; any other exception logs an error and exits 1.
`loopLog` is whatever the loop logged before stopping. -/
def runMain (loopLog : List String) (leave : LoopExit)
    (successful_shots total_shots : Nat) : MainResult :=
  match leave with
  | .normal => ⟨loopLog ++ [summaryLine successful_shots total_shots], 0⟩
  | .interrupted => ⟨loopLog ++ ["Script interrupted by user"], 0⟩
  | .failed msg => ⟨loopLog ++ ["Script failed with error: " ++ msg], 1⟩

/-- C4 counterexample: a run cancelled by a keyboard interrupt (here with
3 of 5 shots successful and nothing else logged) exits with code 0 but
never reports the success tally — the summary line is only reached on the
normal path, and the `except KeyboardInterrupt` handler logs only the
interruption message. -/
theorem runMain_interrupted_no_tally :
    (runMain [] .interrupted 3 5).exitCode = 0 ∧
    summaryLine 3 5 ∉ (runMain [] .interrupted 3 5).log := by
  constructor
  · rfl
  · decide

/-- C4 (amended): whenever the scheduler loop is ended by external
cancellation, the process exits with code 0, but instead of the final
tally it reports only the interruption message: the log is exactly what
the loop had already emitted followed by "Script interrupted by user",
with no success-count summary appended. -/
theorem runMain_interrupted (loopLog : List String)
    (successful_shots total_shots : Nat) :
    (runMain loopLog .interrupted successful_shots total_shots).exitCode = 0 ∧
    (runMain loopLog .interrupted successful_shots total_shots).log =
      loopLog ++ ["Script interrupted by user"] :=
  ⟨rfl, rfl⟩
